/-
Verification of the task-dependency model and the complexity-analysis
pipeline of claude-task-master.

Shallow embedding of:
  * src/types/utils/validation.ts
      parseTaskId, hasDependency, dfsTraversal, findCircularDependencies
  * src/scripts/modules/task-manager/analyze-task-complexity.js
      status/id/range filtering, response repair, reconcile of missing
      entries, merge with a prior report, report meta construction, and
      the effect/error flow of analyzeTaskComplexity.

External collaborators (readJSON / writeJSON, generateTextService,
JSON.parse, Date, getProjectName, logging) are modelled as parameters or
as recorded effect events, matching the spec's external-interface
boundary.  JavaScript recursion is modelled with an explicit fuel
argument; fuel exhaustion is a distinguished result that is proved
unreachable for the fuel bounds used, which is how termination of the
JavaScript originals is stated.
-/
import Mathlib

namespace TaskMaster

/-! ## JavaScript string primitives used by the embedded code -/

/-- JS `String.prototype.split('.')`: splits on every dot, keeping empty
segments; the empty string yields `[""]`. -/
def splitCharsOnDot : List Char → List String
  | [] => [""]
  | c :: cs =>
    let rest := splitCharsOnDot cs
    if c = '.' then "" :: rest
    else
      match rest with
      | [] => [String.mk [c]]
      | r :: rs => String.mk (c :: r.data) :: rs

def splitOnDot (s : String) : List String := splitCharsOnDot s.data

/-- Numeric value of a decimal digit string.  For strings matching the JS
regex `^\d+$`, `parseInt` returns a non-negative number that is positive
exactly when this value is positive (float rounding in JS preserves
positivity), which is the only use the embedded code makes of it. -/
def digitsToNat (cs : List Char) : Nat :=
  cs.foldl (fun acc c => acc * 10 + (c.toNat - 48)) 0

/-- The JS regex test `/^\d+$/.test(part)`. -/
def jsAllDigits (s : String) : Bool :=
  !s.data.isEmpty && s.data.all Char.isDigit

/-- ASCII lowering of one character, as `String.prototype.toLowerCase`
acts on the ASCII range (the only range the embedded code feeds it). -/
def asciiLowerChar (c : Char) : Char :=
  if 'A' ≤ c ∧ c ≤ 'Z' then Char.ofNat (c.toNat + 32) else c

/-- JS `String.prototype.toLowerCase`, restricted to ASCII. -/
def jsToLowerCase (s : String) : String :=
  String.mk (s.data.map asciiLowerChar)

/-! ## Identifier model: `parseTaskId` (src/types/utils/validation.ts:163) -/

/-- Result record of `parseTaskId` (interface `IdValidation`). -/
structure IdValidation where
  isValid : Bool
  isMainTask : Bool
  isSubtask : Bool
  isSubSubtask : Bool
  level : Nat
  parts : List String
  parent : Option String
deriving Repr, DecidableEq

/-- `parseTaskId` from src/types/utils/validation.ts lines 163-176:
`parts = id.split('.')`;
`isValid = parts.every(part => /^\d+$/.test(part) && parseInt(part) > 0)`. -/
def parseTaskId (id : String) : IdValidation :=
  let parts := splitOnDot id
  let isValid := parts.all fun part =>
    jsAllDigits part && decide (0 < digitsToNat part.data)
  { isValid := isValid
    isMainTask := parts.length == 1
    isSubtask := parts.length == 2
    isSubSubtask := parts.length == 3
    level := parts.length
    parts := parts
    parent :=
      if parts.length > 1 then some (String.intercalate "." parts.dropLast)
      else none }

/-- Segment test following the claim's words: the regex `[1-9]\d*`
(a positive integer with no leading zero). -/
def claimSegmentOk (s : String) : Bool :=
  match s.data with
  | [] => false
  | c :: cs => c.isDigit && c != '0' && cs.all Char.isDigit

/-- Whole-string test following the claim's words: the regex
`^[1-9]\d*(\.[1-9]\d*)*$`, i.e. every dot-separated segment matches
`[1-9]\d*`. -/
def claimIdOk (s : String) : Bool :=
  (splitOnDot s).all claimSegmentOk

/-! ## Reachability: `hasDependency` (src/types/utils/validation.ts:181) -/

/-- The fields of `Task | Subtask` read by the dependency-graph functions
(`id` and `dependencies`; no other field is accessed by them). -/
structure VTask where
  id : String
  dependencies : List String
deriving Repr, DecidableEq

/-- JS `Map.prototype.get` on a map built from a pair list: when the same
key occurs several times, the last pair wins. -/
def mapGet (pairs : List (String × VTask)) (k : String) : Option VTask :=
  (pairs.reverse.find? fun p => p.1 == k).map Prod.snd

/-- Dependency-list lookup used by `hasDependency`. -/
def lookupDeps (allTasks : List (String × VTask)) (id : String) :
    Option (List String) :=
  (mapGet allTasks id).map VTask.dependencies

/-- The inner `checkDeps` closure of `hasDependency`
(src/types/utils/validation.ts lines 184-194), with the mutable `visited`
set threaded explicitly and the recursion bounded by fuel; `none` marks
fuel exhaustion and is proved unreachable for the fuel bound used.  The
short-circuiting `current.dependencies.some(depId => checkDeps(depId))`
is a fold whose accumulator freezes once `true` (or exhaustion) is
reached, which returns the same value the early exit returns. -/
def checkDeps (lookup : String → Option (List String)) (targetId : String) :
    Nat → List String → String → Option (Bool × List String)
  | 0, _, _ => none
  | fuel + 1, visited, currentId =>
    if currentId ∈ visited then some (false, visited)
    else
      let visited1 := visited ++ [currentId]
      match lookup currentId with
      | none => some (false, visited1)
      | some deps =>
        if targetId ∈ deps then some (true, visited1)
        else
          deps.foldl
            (fun acc d =>
              match acc with
              | none => none
              | some (true, vis) => some (true, vis)
              | some (false, vis) => checkDeps lookup targetId fuel vis d)
            (some (false, visited1))

/-- The step function of the dependency fold of `checkDeps`, named for
the proofs below; `checkDeps` unfolds to a fold of this step. -/
def checkDepsStep (lookup : String → Option (List String))
    (targetId : String) (fuel : Nat)
    (acc : Option (Bool × List String)) (d : String) :
    Option (Bool × List String) :=
  match acc with
  | none => none
  | some (true, vis) => some (true, vis)
  | some (false, vis) => checkDeps lookup targetId fuel vis d

/-- `hasDependency` with the fuel-exhaustion marker exposed.  The fuel
`allTasks.length + 1` bounds the recursion depth: every nested call that
recurses further has visited a fresh key of the map. -/
def hasDependencyRaw (task : VTask) (targetId : String)
    (allTasks : List (String × VTask)) : Option Bool :=
  (checkDeps (lookupDeps allTasks) targetId (allTasks.length + 1) []
    task.id).map Prod.fst

/-- `hasDependency` from src/types/utils/validation.ts lines 181-197. -/
def hasDependency (task : VTask) (targetId : String)
    (allTasks : List (String × VTask)) : Bool :=
  (hasDependencyRaw task targetId allTasks).getD false

/-- Direct-or-transitive dependency: the chain `id → … → u` runs through
map entries, and `targetId` appears on the dependency list of the last
node `u` of the chain. -/
inductive DependsOn (lookup : String → Option (List String))
    (targetId : String) : String → Prop
  | direct (id : String) (deps : List String)
      (hl : lookup id = some deps) (hm : targetId ∈ deps) :
      DependsOn lookup targetId id
  | trans (id d : String) (deps : List String)
      (hl : lookup id = some deps) (hd : d ∈ deps)
      (h : DependsOn lookup targetId d) :
      DependsOn lookup targetId id

/-! ## Cycle detection (src/types/utils/validation.ts:202 and 238) -/

/-- JS `Array.prototype.indexOf`: first index, `-1` when absent. -/
def jsIndexOf (x : String) : List String → Int
  | [] => -1
  | y :: ys =>
    if y = x then 0
    else
      let r := jsIndexOf x ys
      if r < 0 then -1 else r + 1

/-- JS `Array.prototype.slice(start)` with a single, possibly negative,
start index. -/
def jsSliceFrom (l : List String) (i : Int) : List String :=
  if i < 0 then l.drop (l.length - (-i).toNat) else l.drop i.toNat

/-- The mutable containers of `dfsTraversal`: the global `visited` set,
the on-stack set, and the accumulated cycle strings. -/
structure DfsState where
  visited : List String
  stack : List String
  cycles : List String
deriving Repr, DecidableEq

/-- `dfsTraversal` from src/types/utils/validation.ts lines 202-233,
fuel-bounded (fuel exhaustion returns `false` without effect and is
unreachable for the bound used by `findCircularDependencies`, since every
recursing frame marks a fresh map key as visited).  The
`for (const depId of current.dependencies)` loop is a fold whose
accumulator freezes on the first `true`, matching the early return of
the source, which also skips the enclosing frame's `stack.delete`. -/
def dfsTraversal (taskMap : List (String × VTask)) :
    Nat → String → List String → DfsState → Bool × DfsState
  | 0, _, _, st => (false, st)
  | fuel + 1, id, path, st =>
    if id ∈ st.stack then
      let cycleStart := jsIndexOf id path
      let cycle := jsSliceFrom path cycleStart ++ [id]
      (true, { st with cycles :=
        st.cycles ++
          ["Circular dependency: " ++ String.intercalate " -> " cycle] })
    else if id ∈ st.visited then (false, st)
    else
      let st1 := { st with visited := st.visited ++ [id],
                           stack := st.stack ++ [id] }
      match mapGet taskMap id with
      | none => (false, { st1 with stack := st1.stack.filter (· != id) })
      | some current =>
        let r := current.dependencies.foldl
          (fun (acc : Bool × DfsState) depId =>
            if acc.1 then acc
            else dfsTraversal taskMap fuel depId (path ++ [id]) acc.2)
          (false, st1)
        if r.1 then r
        else (false, { r.2 with stack := r.2.stack.filter (· != id) })

/-- First-occurrence deduplication of the cycle strings
(src/types/utils/validation.ts lines 248-256). -/
def dedupKeepFirst (l : List String) : List String :=
  (l.foldl
    (fun (acc : List String × List String) c =>
      if c ∈ acc.2 then acc else (acc.1 ++ [c], acc.2 ++ [c]))
    ([], [])).1

/-- `findCircularDependencies` from src/types/utils/validation.ts lines
238-259: every task is used as a DFS root with a fresh `visited` and
`stack`, the returned flag of the root call is discarded, and the
collected cycle strings are deduplicated. -/
def findCircularDependencies (tasks : List VTask) : List String :=
  let taskMap := tasks.map fun t => (t.id, t)
  let cycles := tasks.foldl
    (fun cycles t =>
      (dfsTraversal taskMap (tasks.length + 1) t.id []
        ⟨[], [], cycles⟩).2.cycles)
    []
  dedupKeepFirst cycles

/-! ## Complexity-analysis pipeline
(src/scripts/modules/task-manager/analyze-task-complexity.js) -/

/-- The task fields read by `analyzeTaskComplexity`: `id` (a number),
`title` and `status` (absent or a string). -/
structure ATask where
  id : Int
  title : String
  status : Option String
deriving Repr, DecidableEq

/-- A complexity-analysis entry as produced by parsing and by the default
synthesis. -/
structure Entry where
  taskId : Int
  taskTitle : String
  complexityScore : Int
  recommendedSubtasks : Int
  expansionPrompt : String
  reasoning : String
deriving Repr, DecidableEq

/-- A JSON scalar stored in a report's `meta` object. -/
inductive MetaVal
  | str (s : String)
  | num (n : Int)
  | bool (b : Bool)
deriving Repr, DecidableEq

/-- A complexity report: the `meta` object modelled as its literal list
of field/value pairs (so that which fields are present is observable),
plus the entry list. -/
structure Report where
  meta : List (String × MetaVal)
  complexityAnalysis : List Entry
deriving Repr, DecidableEq

/-- `const activeStatuses = ['pending', 'blocked', 'in-progress']`
(line 243). -/
def activeStatuses : List String := ["pending", "blocked", "in-progress"]

/-- `task.status?.toLowerCase() || 'pending'` (line 245): an absent
status, and also an empty one (`''` is falsy in JS), default to
`"pending"`. -/
def effectiveStatus (t : ATask) : String :=
  match t.status with
  | none => "pending"
  | some s =>
    let l := jsToLowerCase s
    if l = "" then "pending" else l

/-- The status filter (lines 243-246). -/
def statusFilter (tasks : List ATask) : List ATask :=
  tasks.filter fun t => decide (effectiveStatus t ∈ activeStatuses)

/-- The selection mode derived from the `--id` / `--from` / `--to`
options: `byIds` when `options.id` was given (its parsed integer list may
be empty if nothing parsed), `byRange` when `from` or `to` was given. -/
inductive FilterMode
  | noFilter
  | byIds (ids : List Int)
  | byRange (fromId toId : Option Int)
deriving Repr, DecidableEq

/-- `Math.max(...originalData.tasks.map(t => t.id))`; only reached with a
nonempty task list (the empty case would be `-Infinity` in JS). -/
def maxTaskId (tasks : List ATask) : Int :=
  match tasks.map ATask.id with
  | [] => 0
  | x :: xs => xs.foldl max x

/-- The id / range filtering applied after the status filter
(lines 248-301): an explicit id list filters only when nonempty; a range
filters only when `from` or `to` was given, `from` defaulting to 1 and
`to` to the maximal id of the pre-filter collection. -/
def applyMode (original statusFiltered : List ATask) :
    FilterMode → List ATask
  | .noFilter => statusFiltered
  | .byIds ids =>
    if ids.length > 0 then
      statusFiltered.filter fun t => decide (t.id ∈ ids)
    else statusFiltered
  | .byRange fromId toId =>
    if fromId.isSome || toId.isSome then
      let effectiveFromId := fromId.getD 1
      let effectiveToId := toId.getD (maxTaskId original)
      statusFiltered.filter fun t =>
        decide (effectiveFromId ≤ t.id) && decide (t.id ≤ effectiveToId)
    else statusFiltered

/-- The condition of the empty-filter short circuit (line 368):
`specificIds || fromId !== null || toId !== null` — an id option parsed
to an empty list is still truthy in JS. -/
def isIdOrRangeMode : FilterMode → Bool
  | .noFilter => false
  | .byIds _ => true
  | .byRange fromId toId => fromId.isSome || toId.isSome

/-! ### Response repair (lines 493-515) -/

/-- ASCII whitespace as trimmed by JS `String.prototype.trim` (Unicode
space classes are not produced by the embedded inputs). -/
def jsWhitespace (c : Char) : Bool :=
  c = ' ' || c = '\t' || c = '\n' || c = '\r' ||
  c = Char.ofNat 11 || c = Char.ofNat 12

/-- JS `String.prototype.trim`. -/
def jsTrim (s : String) : String :=
  String.mk
    (((s.data.dropWhile jsWhitespace).reverse.dropWhile
      jsWhitespace).reverse)

/-- Suffix after the first occurrence of a triple-backtick fence, if
any. -/
def afterFirstFence : List Char → Option (List Char)
  | '`' :: '`' :: '`' :: rest => some rest
  | _ :: rest => afterFirstFence rest
  | [] => none

/-- Characters before the next triple-backtick fence; `none` when no
closing fence follows. -/
def beforeNextFence : List Char → Option (List Char)
  | '`' :: '`' :: '`' :: _ => some []
  | c :: rest => (beforeNextFence rest).map (c :: ·)
  | [] => none

/-- The match of `/```(?:json)?\s*([\s\S]*?)\s*```/`: the text between
the first fence (after an optional literal `json`) and the next fence.
The `\s*` groups only shave whitespace the caller trims again, so the
capture is returned untrimmed here and trimmed at the use site. -/
def fencedCapture (cs : List Char) : Option (List Char) :=
  match afterFirstFence cs with
  | none => none
  | some afterOpen =>
    let afterJson :=
      if afterOpen.take 4 = ['j', 's', 'o', 'n'] then afterOpen.drop 4
      else afterOpen
    beforeNextFence afterJson

/-- The repair pipeline applied to `aiServiceResponse.mainResult`
(lines 493-515): trim; extract a fenced block if present; otherwise
slice between the first `[` and the last `]` when both exist in order;
otherwise leave the trimmed text as is. -/
def cleanedResponse (raw : String) : String :=
  let c := jsTrim raw
  match fencedCapture c.data with
  | some inner => jsTrim (String.mk inner)
  | none =>
    let cs := c.data
    match cs.findIdx? (· = '['), cs.reverse.findIdx? (· = ']') with
    | some i, some jrev =>
      let j := cs.length - 1 - jrev
      if i < j then String.mk ((cs.drop i).take (j + 1 - i)) else c
    | _, _ => c

/-! ### Reconcile of missing entries (lines 544-577) -/

/-- The default entry pushed for a task the generated analysis missed
(lines 566-574). -/
def defaultEntryFor (t : ATask) : Entry :=
  { taskId := t.id
    taskTitle := t.title
    complexityScore := 5
    recommendedSubtasks := 3
    expansionPrompt :=
      "Break down this task with a focus on " ++ jsToLowerCase t.title
        ++ "."
    reasoning := "Automatically added due to missing analysis in AI response." }

/-- The reconcile step: for every requested task id absent from the
parsed entries, look the task up and append the default entry
(lines 544-577; the parsed entries come first, the defaults follow in
requested-id order). -/
def reconcile (tasks : List ATask) (entries : List Entry) : List Entry :=
  let taskIds := tasks.map ATask.id
  let analysisTaskIds := entries.map Entry.taskId
  let missingTaskIds := taskIds.filter fun id =>
    !decide (id ∈ analysisTaskIds)
  entries ++ missingTaskIds.filterMap fun missingId =>
    (tasks.find? fun t => t.id == missingId).map defaultEntryFor

/-! ### Merge with the prior report (lines 579-607) -/

/-- The merge of freshly produced entries into the prior report's entry
list: keep prior entries whose id was not just analyzed, then append all
new entries. -/
def mergeEntries (prior new : List Entry) : List Entry :=
  let analyzedTaskIds := new.map Entry.taskId
  (prior.filter fun e => !decide (e.taskId ∈ analyzedTaskIds)) ++ new

/-! ### Report construction and the orchestrator -/

/-- Inputs of one `analyzeTaskComplexity` run, with the external
collaborators resolved: the task file's content, the selection mode, the
prior report (`none` when the output file is absent or unreadable), the
outcome of the single `generateTextService` call, and the values the
environment supplies (`new Date().toISOString()`, `getProjectName`,
threshold and research flags, and whether an MCP logger is present). -/
structure RunInput where
  tasks : List ATask
  mode : FilterMode
  existingReport : Option Report
  genResult : Except String String
  generatedAt : String
  projectName : String
  thresholdScore : Int
  useResearch : Bool
  isMcp : Bool
deriving Repr

/-- The report written when the filtered task list is empty and no id or
range filter short-circuits (lines 387-396).  Its `meta` literal has
five fields; `existingReport?.complexityAnalysis || []` keeps the prior
entries (an empty array is truthy in JS). -/
def emptyReportOf (inp : RunInput) : Report :=
  { meta :=
      [("generatedAt", .str inp.generatedAt),
       ("tasksAnalyzed", .num 0),
       ("thresholdScore", .num inp.thresholdScore),
       ("projectName", .str inp.projectName),
       ("usedResearch", .bool inp.useResearch)]
    complexityAnalysis :=
      match inp.existingReport with
      | some r => r.complexityAnalysis
      | none => [] }

/-- The report written after a successful analysis (lines 609-620): its
`meta` literal has seven fields. -/
def fullReportOf (inp : RunInput) (tasksAnalyzed : Nat)
    (finalAnalysis : List Entry) : Report :=
  { meta :=
      [("generatedAt", .str inp.generatedAt),
       ("tasksAnalyzed", .num tasksAnalyzed),
       ("totalTasks", .num inp.tasks.length),
       ("analysisCount", .num finalAnalysis.length),
       ("thresholdScore", .num inp.thresholdScore),
       ("projectName", .str inp.projectName),
       ("usedResearch", .bool inp.useResearch)]
    complexityAnalysis := finalAnalysis }

/-- Observable effects of a run: the single text-generation call and
writes of the report file (`writeJSON`). -/
inductive Event
  | genCall
  | write (path : String) (r : Report)
deriving Repr, DecidableEq

/-- How a run ends: a returned `{report, telemetryData}` value, an error
rethrown to the MCP caller, or `process.exit(1)` after printing the
error in CLI mode (the outer catch, lines 724-737). -/
inductive Outcome
  | ok (r : Report)
  | thrown (msg : String)
  | exited (msg : String)
deriving Repr, DecidableEq

/-- The outer catch of `analyzeTaskComplexity`: rethrow in MCP mode,
`process.exit(1)` in CLI mode. -/
def failOutcome (inp : RunInput) (msg : String) : Outcome :=
  if inp.isMcp then .thrown msg else .exited msg

/-- `analyzeTaskComplexity` (lines 176-738), over the read-from-file
path, with `JSON.parse` abstracted as the external `jsonParse` (an entry
list on success, the parser's error otherwise).  Returns the outcome and
the ordered effect trace. -/
def analyzeTaskComplexity (jsonParse : String → Except String (List Entry))
    (outputPath : String) (inp : RunInput) : Outcome × List Event :=
  if inp.tasks.length = 0 then
    (failOutcome inp "No tasks found in the tasks file", [])
  else
    let filteredTasks := applyMode inp.tasks (statusFilter inp.tasks) inp.mode
    if filteredTasks.length = 0 then
      match inp.existingReport, isIdOrRangeMode inp.mode with
      | some existing, true => (.ok existing, [])
      | _, _ =>
        let emptyReport := emptyReportOf inp
        (.ok emptyReport, [.write outputPath emptyReport])
    else
      match inp.genResult with
      | .error e => (failOutcome inp e, [.genCall])
      | .ok mainResult =>
        match jsonParse (cleanedResponse mainResult) with
        | .error parseError => (failOutcome inp parseError, [.genCall])
        | .ok parsedEntries =>
          let complexityAnalysis := reconcile filteredTasks parsedEntries
          let finalComplexityAnalysis :=
            match inp.existingReport with
            | some existing =>
              mergeEntries existing.complexityAnalysis complexityAnalysis
            | none => complexityAnalysis
          let report :=
            fullReportOf inp filteredTasks.length finalComplexityAnalysis
          (.ok report, [.genCall, .write outputPath report])

/-! ## Definitions used only to state the claims -/

/-- Status predicate following the claim's words: keep a task whose
status, lowercased and defaulting to `"pending"` only when absent, is an
active status. -/
def claimStatusKeep (t : ATask) : Bool :=
  decide ((t.status.map jsToLowerCase).getD "pending" ∈ activeStatuses)

/-- Field names present in a report's `meta` object. -/
def metaKeys (r : Report) : List String := r.meta.map Prod.fst

/-- The seven `meta` fields the spec's report schema lists. -/
def sevenMetaKeys : List String :=
  ["generatedAt", "tasksAnalyzed", "totalTasks", "analysisCount",
   "thresholdScore", "projectName", "usedResearch"]

/-- The five `meta` fields of the empty-filter report literal. -/
def fiveMetaKeys : List String :=
  ["generatedAt", "tasksAnalyzed", "thresholdScore", "projectName",
   "usedResearch"]

/-- Reports written during a run, in order. -/
def writtenReports (trace : List Event) : List Report :=
  trace.filterMap fun e =>
    match e with
    | .write _ r => some r
    | _ => none

/-- Number of text-generation calls in a trace. -/
def genCallCount (trace : List Event) : Nat :=
  (trace.filter fun e =>
    match e with
    | .genCall => true
    | _ => false).length

/-- A `JSON.parse` stand-in for runs that never reach parsing. -/
def noParse : String → Except String (List Entry) :=
  fun _ => .error "SyntaxError"

/-- A `JSON.parse` stand-in returning a fixed entry list. -/
def constParse (es : List Entry) : String → Except String (List Entry) :=
  fun _ => .ok es

/-- A three-entry prior report used by the concrete runs. -/
def priorReport3 : Report :=
  { meta := [("generatedAt", .str "2025-12-31T00:00:00.000Z")]
    complexityAnalysis :=
      [⟨1, "a", 4, 3, "p1", "r1"⟩, ⟨2, "b", 6, 4, "p2", "r2"⟩,
       ⟨3, "c", 7, 5, "p3", "r3"⟩] }

/-- A run whose only task is done, with no id or range filter and a prior
report: the status filter alone empties the task list. -/
def statusEmptyRun : RunInput :=
  { tasks := [⟨1, "T1", some "done"⟩]
    mode := .noFilter
    existingReport := some priorReport3
    genResult := .error "unused"
    generatedAt := "2026-01-01T00:00:00.000Z"
    projectName := "proj"
    thresholdScore := 5
    useResearch := false
    isMcp := true }

/-- A run with an id filter matching no active task and a prior report:
the short-circuit case. -/
def idEmptyRun : RunInput :=
  { tasks := [⟨1, "T1", some "pending"⟩]
    mode := .byIds [2]
    existingReport := some priorReport3
    genResult := .error "unused"
    generatedAt := "2026-01-01T00:00:00.000Z"
    projectName := "proj"
    thresholdScore := 5
    useResearch := false
    isMcp := true }

/-- A run whose status filter empties the list with no prior report:
an empty report is written. -/
def emptyNoPriorRun : RunInput :=
  { tasks := [⟨1, "T1", some "cancelled"⟩]
    mode := .noFilter
    existingReport := none
    genResult := .error "unused"
    generatedAt := "2026-01-02T00:00:00.000Z"
    projectName := "proj"
    thresholdScore := 5
    useResearch := false
    isMcp := true }

/-- A run that reaches the generation call and has it fail. -/
def genFailRun : RunInput :=
  { tasks := [⟨1, "T1", some "pending"⟩]
    mode := .noFilter
    existingReport := none
    genResult := .error "boom"
    generatedAt := "2026-01-03T00:00:00.000Z"
    projectName := "proj"
    thresholdScore := 5
    useResearch := false
    isMcp := true }

/-- A run that reaches the generation call successfully and analyzes one
pending task. -/
def genOkRun : RunInput :=
  { tasks := [⟨1, "T1", some "pending"⟩]
    mode := .noFilter
    existingReport := none
    genResult := .ok "[]"
    generatedAt := "2026-01-04T00:00:00.000Z"
    projectName := "proj"
    thresholdScore := 5
    useResearch := false
    isMcp := true }

/-- The report the analysis path writes on `genOkRun` when the parsed
entry list is empty: the one pending task gets the default entry and the
meta literal is the seven-field one. -/
def genOkReport : Report :=
  fullReportOf genOkRun 1
    (reconcile (applyMode genOkRun.tasks (statusFilter genOkRun.tasks)
      genOkRun.mode) [])

/-- Requested tasks for the reconcile witness run. -/
def c4Tasks : List ATask :=
  [⟨1, "Task One", some "pending"⟩, ⟨2, "Task Two", some "pending"⟩]

/-- Parsed entries for the reconcile witness run, missing id 1. -/
def c4Entries : List Entry := [⟨2, "b", 6, 4, "p", "r"⟩]

/-! ## Claims about the identifier model and cycle detection -/

/-- C3 counterexample: `"01"` is accepted by `parseTaskId` (the code
tests `/^\d+$/` and `parseInt(part) > 0`, which both pass), yet it does
not match the claim's regex `^[1-9]\d*(\.[1-9]\d*)*$`. -/
theorem parseTaskId_leadingZero_counterexample :
    (parseTaskId "01").isValid = true ∧ claimIdOk "01" = false := by
  decide

/-- C3 (amended): `parseTaskId(s).isValid` holds iff every dot-separated
segment of `s` is a nonempty digit string of positive numeric value;
leading zeros are allowed, all-zero segments are not. -/
theorem parseTaskId_isValid_iff (s : String) :
    (parseTaskId s).isValid = true ↔
      ∀ part ∈ splitOnDot s,
        part.data ≠ [] ∧ (∀ c ∈ part.data, c.isDigit = true) ∧
          0 < digitsToNat part.data := by
  simp [parseTaskId, jsAllDigits, List.all_eq_true, List.isEmpty_iff,
    and_assoc]

/-- C2 counterexample: on the two-task cycle the code runs a fresh DFS
from each root (the `visited` set is created inside the per-task loop),
so it returns two distinct cycle strings, not exactly one. -/
theorem findCircularDependencies_pair_counterexample :
    findCircularDependencies [⟨"1", ["2"]⟩, ⟨"2", ["1"]⟩] =
      ["Circular dependency: 1 -> 2 -> 1",
       "Circular dependency: 2 -> 1 -> 2"] ∧
    (findCircularDependencies [⟨"1", ["2"]⟩, ⟨"2", ["1"]⟩]).length ≠ 1 := by
  decide

/-- C2 (amended): on the two-task cycle `{1:[2], 2:[1]}`,
`findCircularDependencies` returns, after deduplication, exactly two
cycle strings, one per DFS root; the first contains the path
`1 -> 2 -> 1`. -/
theorem findCircularDependencies_pair_cycles :
    (findCircularDependencies [⟨"1", ["2"]⟩, ⟨"2", ["1"]⟩]).length = 2 ∧
    "Circular dependency: 1 -> 2 -> 1"
      ∈ findCircularDependencies [⟨"1", ["2"]⟩, ⟨"2", ["1"]⟩] ∧
    "Circular dependency: 2 -> 1 -> 2"
      ∈ findCircularDependencies [⟨"1", ["2"]⟩, ⟨"2", ["1"]⟩] := by
  decide

/-! ## Claims about the merge and the status filter -/

/-- C5: the merge keeps exactly the prior entries whose id is not among
the new ids, followed by all new entries; merging a list into itself is
a no-op, and merging a single new entry leaves exactly that entry for
its id. -/
theorem mergeEntries_spec :
    (∀ P N : List Entry,
      mergeEntries P N =
        (P.filter fun e => !decide (e.taskId ∈ N.map Entry.taskId)) ++ N) ∧
    (∀ P : List Entry, mergeEntries P P = P) ∧
    (∀ (P : List Entry) (e : Entry),
      (mergeEntries P [e]).filter (fun x => x.taskId == e.taskId) = [e]) := by
  refine ⟨fun P N => rfl, fun P => ?_, fun P e => ?_⟩
  · simp [mergeEntries]
    intro a ha
    exact ⟨a, ha, rfl⟩
  · simp [mergeEntries, List.filter_append, List.filter_filter]

/-- C8 counterexample: a present-but-empty status is kept by the code
(`task.status?.toLowerCase() || 'pending'` treats the falsy `''` as
`'pending'`), while the claim's predicate — default only when absent —
rejects it. -/
theorem statusFilter_emptyStatus_counterexample :
    statusFilter [⟨1, "A", some ""⟩] = [⟨1, "A", some ""⟩] ∧
    claimStatusKeep ⟨1, "A", some ""⟩ = false := by
  decide

/-- C8 (amended): the status filter keeps exactly the tasks whose
status, lowercased and defaulting to `"pending"` when absent or empty,
is pending, blocked or in-progress; on
`[{id:1,status:"done"},{id:2,status:"pending"}]` only task 2 is kept. -/
theorem statusFilter_keeps_iff :
    (∀ (tasks : List ATask) (t : ATask),
      t ∈ statusFilter tasks ↔
        t ∈ tasks ∧
          (match t.status with
            | none => "pending"
            | some s =>
              if jsToLowerCase s = "" then "pending" else jsToLowerCase s)
            ∈ activeStatuses) ∧
    statusFilter [⟨1, "A", some "done"⟩, ⟨2, "B", some "pending"⟩] =
      [⟨2, "B", some "pending"⟩] := by
  constructor
  · intro tasks t
    simp [statusFilter, List.mem_filter, effectiveStatus]
  · decide

/-! ## Claims about the reconcile step -/

/-- Looking a task up by an id that occurs in the collection succeeds and
returns a task carrying that id (`tasksData.tasks.find(t => t.id === missingId)`). -/
theorem find_task_by_mem_id (T : List ATask) (i : Int)
    (h : i ∈ T.map ATask.id) :
    ∃ t, (T.find? fun t => t.id == i) = some t ∧ t ∈ T ∧ t.id = i := by
  induction T with
  | nil => simp at h
  | cons a ts ih =>
    by_cases ha : a.id = i
    · exact ⟨a, by simp [List.find?, ha], by simp, ha⟩
    · simp [List.mem_map] at h
      rcases h with h | h
      · exact absurd h.symm ha
      · rcases ih (List.mem_map.mpr h) with ⟨t, hf, hm, hid⟩
        refine ⟨t, ?_, List.mem_cons_of_mem a hm, hid⟩
        have hne : (a.id == i) = false := by simp [ha]
        simp [List.find?, hne, hf]

/-- C4 counterexample: a parsed entry whose id (2) is not among the
requested ids (only 1) survives the reconcile, so the result's id set is
strictly larger than the requested id set. -/
theorem reconcile_extra_id_counterexample :
    (reconcile [⟨1, "Task One", some "pending"⟩]
        [⟨2, "b", 6, 4, "p", "r"⟩]).map Entry.taskId = [2, 1] ∧
    (2 : Int) ∉
      ([⟨1, "Task One", some "pending"⟩] : List ATask).map ATask.id := by
  decide

/-- C4 (amended): the reconcile synthesizes the default entry
(score 5, 3 subtasks, templated prompt over the lowercased title,
auto-generated reasoning) for every requested id missing from the parsed
entries, and the result's id set is the union of the parsed ids and the
requested ids — so it always covers the requested set, and equals it
exactly when every parsed id is a requested id. -/
theorem reconcile_covers_requested (T : List ATask) (E : List Entry) :
    (∀ i : Int, i ∈ (reconcile T E).map Entry.taskId ↔
        i ∈ E.map Entry.taskId ∨ i ∈ T.map ATask.id) ∧
    (∀ i : Int, i ∈ T.map ATask.id → i ∉ E.map Entry.taskId →
        ∃ t ∈ T, t.id = i ∧ defaultEntryFor t ∈ reconcile T E) ∧
    (∀ t : ATask, (defaultEntryFor t).complexityScore = 5 ∧
        (defaultEntryFor t).recommendedSubtasks = 3 ∧
        (defaultEntryFor t).expansionPrompt =
          "Break down this task with a focus on " ++ jsToLowerCase t.title
            ++ "." ∧
        (defaultEntryFor t).reasoning =
          "Automatically added due to missing analysis in AI response.") ∧
    ((∀ i ∈ E.map Entry.taskId, i ∈ T.map ATask.id) →
      ∀ i : Int,
        i ∈ (reconcile T E).map Entry.taskId ↔ i ∈ T.map ATask.id) := by
  have hmain : ∀ i : Int, i ∈ (reconcile T E).map Entry.taskId ↔
      i ∈ E.map Entry.taskId ∨ i ∈ T.map ATask.id := by
    intro i
    simp only [reconcile, List.map_append, List.mem_append]
    constructor
    · rintro (h | h)
      · exact Or.inl h
      · right
        simp only [List.map_filterMap, List.mem_filterMap] at h
        rcases h with ⟨mid, hmid, hopt⟩
        rcases hf : T.find? fun t => t.id == mid with _ | t
        · simp [hf] at hopt
        · have := List.find?_some hf
          simp [hf, defaultEntryFor] at hopt
          have hti : t.id = mid := by simpa using this
          subst hopt
          rw [hti]
          exact (List.mem_filter.mp hmid).1
    · rintro (h | h)
      · exact Or.inl h
      · by_cases he : i ∈ E.map Entry.taskId
        · exact Or.inl he
        · right
          rcases find_task_by_mem_id T i h with ⟨t, hf, hmem, hid⟩
          simp only [List.map_filterMap, List.mem_filterMap]
          refine ⟨i, ?_, ?_⟩
          · exact List.mem_filter.mpr ⟨h, by simpa using he⟩
          · simp [hf, defaultEntryFor, hid]
  refine ⟨hmain, ?_, fun t => ⟨rfl, rfl, rfl, rfl⟩, ?_⟩
  · intro i hT hE
    rcases find_task_by_mem_id T i hT with ⟨t, hf, hmem, hid⟩
    refine ⟨t, hmem, hid, ?_⟩
    simp only [reconcile, List.mem_append]
    right
    simp only [List.mem_filterMap]
    exact ⟨i, List.mem_filter.mpr ⟨hT, by simpa using hE⟩, by simp [hf]⟩
  · intro hsub i
    rw [hmain i]
    constructor
    · rintro (h | h)
      · exact hsub i h
      · exact h
    · exact Or.inr

/-- Witness for the reconcile coverage theorem at a concrete run with a
requested id missing from the parsed entries. -/
theorem reconcile_covers_requested_witness :
    ((1 : Int) ∈ c4Tasks.map ATask.id) ∧
    ((1 : Int) ∉ c4Entries.map Entry.taskId) ∧
    (∃ t ∈ c4Tasks, t.id = 1 ∧
      defaultEntryFor t ∈ reconcile c4Tasks c4Entries) ∧
    (∀ i : Int, i ∈ (reconcile c4Tasks c4Entries).map Entry.taskId ↔
      i ∈ c4Tasks.map ATask.id) := by
  refine ⟨by decide, by decide,
    (reconcile_covers_requested c4Tasks c4Entries).2.1 1 (by decide)
      (by decide),
    (reconcile_covers_requested c4Tasks c4Entries).2.2.2 ?_⟩
  decide

/-! ## Claims about the orchestrator's effect and error flow -/

/-- C1 counterexample: with only the status filter active (no id or
range option), an all-done collection and an existing prior report, the
run does not return the prior report — it writes and returns a fresh
empty-meta report (the short-circuit at line 368 additionally requires
`specificIds || fromId !== null || toId !== null`). -/
theorem analyze_statusEmpty_writes_counterexample :
    applyMode statusEmptyRun.tasks (statusFilter statusEmptyRun.tasks)
        statusEmptyRun.mode = [] ∧
    statusEmptyRun.existingReport = some priorReport3 ∧
    analyzeTaskComplexity noParse "out.json" statusEmptyRun =
      (.ok (emptyReportOf statusEmptyRun),
       [.write "out.json" (emptyReportOf statusEmptyRun)]) ∧
    emptyReportOf statusEmptyRun ≠ priorReport3 := by
  decide

/-- C1 (amended): when an id or range filter was requested, the filtered
list is empty, and a prior report exists, the run returns the prior
report unchanged with no generation call and no write. -/
theorem analyze_empty_filter_short_circuit
    (jsonParse : String → Except String (List Entry)) (outputPath : String)
    (inp : RunInput) (R : Report)
    (hne : inp.tasks ≠ [])
    (hex : inp.existingReport = some R)
    (hmode : isIdOrRangeMode inp.mode = true)
    (hempty :
      applyMode inp.tasks (statusFilter inp.tasks) inp.mode = []) :
    analyzeTaskComplexity jsonParse outputPath inp = (.ok R, []) := by
  have h0 : ¬(inp.tasks.length = 0) := by simpa using hne
  unfold analyzeTaskComplexity
  simp [h0, hempty, hex, hmode]

/-- Witness for the short-circuit theorem: an id filter matching no
active task, with a prior report present. -/
theorem analyze_empty_filter_short_circuit_witness :
    idEmptyRun.tasks ≠ [] ∧
    idEmptyRun.existingReport = some priorReport3 ∧
    isIdOrRangeMode idEmptyRun.mode = true ∧
    applyMode idEmptyRun.tasks (statusFilter idEmptyRun.tasks)
      idEmptyRun.mode = [] ∧
    analyzeTaskComplexity noParse "report.json" idEmptyRun =
      (.ok priorReport3, []) :=
  ⟨by decide, by decide, by decide, by decide,
    analyze_empty_filter_short_circuit noParse "report.json" idEmptyRun
      priorReport3 (by decide) (by decide) (by decide) (by decide)⟩

/-- C6: when the generation call fails, or the repaired response fails
to parse, the run surfaces exactly that error (rethrown to an MCP
caller; `process.exit(1)` in CLI mode), makes no further generation
call, and writes nothing — the previously persisted report is left
untouched. -/
theorem analyze_failure_propagates
    (jsonParse : String → Except String (List Entry)) (outputPath : String)
    (inp : RunInput) (e : String)
    (hne : inp.tasks ≠ [])
    (hfil :
      applyMode inp.tasks (statusFilter inp.tasks) inp.mode ≠ [])
    (herr : inp.genResult = .error e ∨
      ∃ raw, inp.genResult = .ok raw ∧
        jsonParse (cleanedResponse raw) = .error e) :
    analyzeTaskComplexity jsonParse outputPath inp =
      ((if inp.isMcp then Outcome.thrown e else Outcome.exited e),
       [.genCall]) ∧
    writtenReports (analyzeTaskComplexity jsonParse outputPath inp).2
      = [] ∧
    genCallCount (analyzeTaskComplexity jsonParse outputPath inp).2
      = 1 := by
  have h0 : ¬(inp.tasks.length = 0) := by simpa using hne
  have hfl : ¬(applyMode inp.tasks (statusFilter inp.tasks)
      inp.mode).length = 0 := by
    simpa [List.length_eq_zero] using hfil
  have hmain : analyzeTaskComplexity jsonParse outputPath inp =
      ((if inp.isMcp then Outcome.thrown e else Outcome.exited e),
       [.genCall]) := by
    unfold analyzeTaskComplexity
    rcases herr with herr | ⟨raw, hok, hparse⟩
    · simp [h0, hfl, herr, failOutcome]
    · simp [h0, hfl, hok, hparse, failOutcome]
  refine ⟨hmain, ?_, ?_⟩
  · rw [hmain]
    rfl
  · rw [hmain]
    rfl

/-- Witness for the failure-propagation theorem: a generation failure in
MCP mode ends as a rethrow with one generation call and no write. -/
theorem analyze_failure_propagates_witness :
    genFailRun.tasks ≠ [] ∧
    applyMode genFailRun.tasks (statusFilter genFailRun.tasks)
      genFailRun.mode ≠ [] ∧
    genFailRun.genResult = .error "boom" ∧
    analyzeTaskComplexity noParse "report.json" genFailRun =
      ((if genFailRun.isMcp then Outcome.thrown "boom"
        else Outcome.exited "boom"), [.genCall]) ∧
    writtenReports
      (analyzeTaskComplexity noParse "report.json" genFailRun).2 = [] := by
  refine ⟨by decide, by decide, rfl, ?_, ?_⟩
  · exact (analyze_failure_propagates noParse "report.json" genFailRun
      "boom" (by decide) (by decide) (Or.inl rfl)).1
  · exact (analyze_failure_propagates noParse "report.json" genFailRun
      "boom" (by decide) (by decide) (Or.inl rfl)).2.1

/-- C9 counterexample: the report written on the empty-filter path (no
id or range option, no prior report) has a five-field `meta` literal —
`totalTasks` and `analysisCount` are absent. -/
theorem analyze_emptyReport_meta_counterexample :
    writtenReports
        (analyzeTaskComplexity noParse "out.json" emptyNoPriorRun).2 =
      [emptyReportOf emptyNoPriorRun] ∧
    "totalTasks" ∉ metaKeys (emptyReportOf emptyNoPriorRun) ∧
    "analysisCount" ∉ metaKeys (emptyReportOf emptyNoPriorRun) := by
  decide

/-- C9 (amended): a report persisted by the analysis path — a write in
a trace that also holds the generation call — carries exactly the seven
meta fields; a report persisted without a generation call is the
empty-filter write and carries exactly the five-field meta, lacking
`totalTasks` and `analysisCount`. -/
theorem analyze_report_meta_keys
    (jsonParse : String → Except String (List Entry)) (outputPath : String)
    (inp : RunInput) (p : String) (r : Report)
    (hw : Event.write p r ∈
      (analyzeTaskComplexity jsonParse outputPath inp).2) :
    (Event.genCall ∈ (analyzeTaskComplexity jsonParse outputPath inp).2 →
      metaKeys r = sevenMetaKeys) ∧
    (Event.genCall ∉ (analyzeTaskComplexity jsonParse outputPath inp).2 →
      metaKeys r = fiveMetaKeys) := by
  by_cases h0 : inp.tasks.length = 0
  · simp [analyzeTaskComplexity, h0] at hw
  · by_cases hlen :
        (applyMode inp.tasks (statusFilter inp.tasks) inp.mode).length = 0
    · rcases hex : inp.existingReport with _ | R
      · simp [analyzeTaskComplexity, h0, hlen, hex] at hw
        constructor
        · intro hg
          simp [analyzeTaskComplexity, h0, hlen, hex] at hg
        · intro hng
          rw [hw.2]
          rfl
      · cases hmode : isIdOrRangeMode inp.mode
        · simp [analyzeTaskComplexity, h0, hlen, hex, hmode] at hw
          constructor
          · intro hg
            simp [analyzeTaskComplexity, h0, hlen, hex, hmode] at hg
          · intro hng
            rw [hw.2]
            rfl
        · simp [analyzeTaskComplexity, h0, hlen, hex, hmode] at hw
    · rcases hgen : inp.genResult with e2 | raw
      · simp [analyzeTaskComplexity, h0, hlen, hgen] at hw
      · rcases hpar : jsonParse (cleanedResponse raw) with pe | es
        · simp [analyzeTaskComplexity, h0, hlen, hgen, hpar] at hw
        · simp [analyzeTaskComplexity, h0, hlen, hgen, hpar] at hw
          constructor
          · intro hg
            rw [hw.2]
            rfl
          · intro hng
            exfalso
            apply hng
            simp [analyzeTaskComplexity, h0, hlen, hgen, hpar]

/-- Witness for the meta-keys theorem at an exercised analysis-path run:
`genOkRun` with a successful parse writes `genOkReport` after its
generation call, and the theorem yields the seven-field meta for it. -/
theorem analyze_report_meta_keys_witness :
    (Event.write "report.json" genOkReport ∈
      (analyzeTaskComplexity (constParse []) "report.json" genOkRun).2) ∧
    (Event.genCall ∈
      (analyzeTaskComplexity (constParse []) "report.json" genOkRun).2) ∧
    metaKeys genOkReport = sevenMetaKeys :=
  ⟨by decide, by decide,
    (analyze_report_meta_keys (constParse []) "report.json" genOkRun
      "report.json" genOkReport (by decide)).1 (by decide)⟩

/-! ## Claims about `hasDependency` -/

/-- C10: when the passed task's id is not a key of the map, the
traversal returns `false` for every target — and the result depends on
the passed object only through its id (the dependency list of the
argument itself is never read). -/
theorem hasDependency_unknown_id (task : VTask) (targetId : String)
    (allTasks : List (String × VTask))
    (h : mapGet allTasks task.id = none) :
    hasDependency task targetId allTasks = false ∧
    ∀ deps2 : List String,
      hasDependency ⟨task.id, deps2⟩ targetId allTasks =
        hasDependency task targetId allTasks := by
  constructor
  · unfold hasDependency hasDependencyRaw
    simp [checkDeps, lookupDeps, h]
  · intro deps2
    rfl

/-- Witness for the unknown-id theorem: a task absent from an empty map,
whose own dependency list even contains the target. -/
theorem hasDependency_unknown_id_witness :
    mapGet [] (VTask.id ⟨"7", ["9"]⟩) = none ∧
    hasDependency ⟨"7", ["9"]⟩ "9" [] = false :=
  ⟨rfl, (hasDependency_unknown_id ⟨"7", ["9"]⟩ "9" [] rfl).1⟩

/-! ## Correctness of `hasDependency` (C7)

The lemmas follow the call structure of `checkDeps`: statements about a
fuel level's dependency fold are proved from the statement about
`checkDeps` at the same fuel, and `checkDeps` at `fuel + 1` uses the
fold statement at `fuel`. -/

/-- One-step unfolding of `checkDeps` at positive fuel, with the
dependency fold expressed through `checkDepsStep`. -/
theorem checkDeps_succ (lookup : String → Option (List String))
    (targetId : String) (fuel : Nat) (vis : List String) (id : String) :
    checkDeps lookup targetId (fuel + 1) vis id =
      if id ∈ vis then some (false, vis)
      else
        match lookup id with
        | none => some (false, vis ++ [id])
        | some deps =>
          if targetId ∈ deps then some (true, vis ++ [id])
          else
            deps.foldl (checkDepsStep lookup targetId fuel)
              (some (false, vis ++ [id])) := rfl

/-- A fold whose accumulator already hit fuel exhaustion stays
exhausted. -/
theorem checkDeps_foldl_none (lookup : String → Option (List String))
    (targetId : String) (fuel : Nat) (l : List String) :
    l.foldl (checkDepsStep lookup targetId fuel) none = none := by
  induction l with
  | nil => rfl
  | cons d ds ih => simpa [checkDepsStep] using ih

/-- A fold whose accumulator already found the target keeps that
result, modelling the short circuit of `Array.prototype.some`. -/
theorem checkDeps_foldl_true (lookup : String → Option (List String))
    (targetId : String) (fuel : Nat) (l : List String)
    (vis : List String) :
    l.foldl (checkDepsStep lookup targetId fuel) (some (true, vis)) =
      some (true, vis) := by
  induction l with
  | nil => rfl
  | cons d ds ih => simpa [checkDepsStep] using ih

/-- The visited set only grows, through `checkDeps` and through its
dependency fold. -/
theorem checkDeps_visited_mono (lookup : String → Option (List String))
    (targetId : String) :
    ∀ fuel : Nat,
      (∀ (vis : List String) (id : String) (r : Bool × List String),
        checkDeps lookup targetId fuel vis id = some r → vis ⊆ r.2) ∧
      (∀ (l : List String) (b : Bool) (vis : List String)
          (r : Bool × List String),
        l.foldl (checkDepsStep lookup targetId fuel) (some (b, vis)) =
          some r → vis ⊆ r.2) := by
  intro fuel
  induction fuel with
  | zero =>
    constructor
    · intro vis id r h
      simp [checkDeps] at h
    · intro l
      induction l with
      | nil =>
        intro b vis r h
        simp at h
        subst h
        exact List.Subset.refl vis
      | cons d ds ih =>
        intro b vis r h
        cases b with
        | true =>
          rw [List.foldl_cons, show checkDepsStep lookup targetId 0
            (some (true, vis)) d = some (true, vis) from rfl] at h
          exact ih true vis r h
        | false =>
          rw [List.foldl_cons, show checkDepsStep lookup targetId 0
              (some (false, vis)) d =
              checkDeps lookup targetId 0 vis d from rfl,
            show checkDeps lookup targetId 0 vis d = none from rfl,
            checkDeps_foldl_none] at h
          exact absurd h (by simp)
  | succ fuel ih =>
    have h1 : ∀ (vis : List String) (id : String) (r : Bool × List String),
        checkDeps lookup targetId (fuel + 1) vis id = some r →
          vis ⊆ r.2 := by
      intro vis id r h
      rw [checkDeps_succ] at h
      by_cases hv : id ∈ vis
      · simp [hv] at h
        subst h
        exact List.Subset.refl vis
      · simp only [hv, if_false] at h
        rcases hl : lookup id with _ | deps
        · rw [hl] at h
          simp at h
          subst h
          exact List.subset_append_left vis [id]
        · rw [hl] at h
          simp only at h
          by_cases ht : targetId ∈ deps
          · simp [ht] at h
            subst h
            exact List.subset_append_left vis [id]
          · simp only [ht, if_false] at h
            have := ih.2 deps false (vis ++ [id]) r h
            exact (List.subset_append_left vis [id]).trans this
    refine ⟨h1, ?_⟩
    intro l
    induction l with
    | nil =>
      intro b vis r h
      simp at h
      subst h
      exact List.Subset.refl vis
    | cons d ds ihl =>
      intro b vis r h
      cases b with
      | true =>
        rw [List.foldl_cons, show checkDepsStep lookup targetId (fuel + 1)
          (some (true, vis)) d = some (true, vis) from rfl] at h
        exact ihl true vis r h
      | false =>
        rw [List.foldl_cons, show checkDepsStep lookup targetId (fuel + 1)
          (some (false, vis)) d =
          checkDeps lookup targetId (fuel + 1) vis d from rfl] at h
        rcases hc : checkDeps lookup targetId (fuel + 1) vis d with _ | p
        · rw [hc, checkDeps_foldl_none] at h
          exact absurd h (by simp)
        · rw [hc] at h
          rcases p with ⟨b1, v1⟩
          have hsub1 := h1 vis d (b1, v1) hc
          exact hsub1.trans (ihl b1 v1 r h)

/-- Any completed `checkDeps` call leaves its argument in the visited
set. -/
theorem checkDeps_enters (lookup : String → Option (List String))
    (targetId : String) (fuel : Nat) (vis : List String) (id : String)
    (r : Bool × List String)
    (h : checkDeps lookup targetId fuel vis id = some r) : id ∈ r.2 := by
  cases fuel with
  | zero => simp [checkDeps] at h
  | succ fuel =>
    rw [checkDeps_succ] at h
    by_cases hv : id ∈ vis
    · simp [hv] at h
      subst h
      exact hv
    · simp only [hv, if_false] at h
      have hmem : id ∈ vis ++ [id] := by simp
      rcases hl : lookup id with _ | deps
      · rw [hl] at h
        simp at h
        subst h
        exact hmem
      · rw [hl] at h
        simp only at h
        by_cases ht : targetId ∈ deps
        · simp [ht] at h
          subst h
          exact hmem
        · simp only [ht, if_false] at h
          exact (checkDeps_visited_mono lookup targetId fuel).2 deps false
            (vis ++ [id]) r h hmem

/-- When the dependency fold completes without finding the target, every
folded dependency ends up visited. -/
theorem checkDeps_foldl_all_visited
    (lookup : String → Option (List String)) (targetId : String)
    (fuel : Nat) :
    ∀ (l : List String) (vis vis2 : List String),
      l.foldl (checkDepsStep lookup targetId fuel) (some (false, vis)) =
        some (false, vis2) →
      ∀ d ∈ l, d ∈ vis2 := by
  intro l
  induction l with
  | nil => intro vis vis2 h d hd; simp at hd
  | cons d0 ds ih =>
    intro vis vis2 h d hd
    rw [List.foldl_cons, show checkDepsStep lookup targetId fuel
      (some (false, vis)) d0 =
      checkDeps lookup targetId fuel vis d0 from rfl] at h
    rcases hc : checkDeps lookup targetId fuel vis d0 with _ | p
    · rw [hc, checkDeps_foldl_none] at h
      exact absurd h (by simp)
    · rw [hc] at h
      rcases p with ⟨b1, v1⟩
      cases b1 with
      | true =>
        rw [checkDeps_foldl_true] at h
        exact absurd h (by simp)
      | false =>
        rcases List.mem_cons.mp hd with rfl | hds
        · have hd0 : d ∈ v1 := checkDeps_enters lookup targetId fuel vis d
            (false, v1) hc
          exact (checkDeps_visited_mono lookup targetId fuel).2 ds false v1
            (false, vis2) h hd0
        · exact ih v1 vis2 h d hds

/-- After a `checkDeps` run (or dependency fold) that returns `false`,
every newly visited node that is a key of the map was fully explored:
its dependency list misses the target and is entirely visited. -/
theorem checkDeps_closure (lookup : String → Option (List String))
    (targetId : String) :
    ∀ fuel : Nat,
      (∀ (vis : List String) (id : String) (vis2 : List String),
        checkDeps lookup targetId fuel vis id = some (false, vis2) →
        ∀ u ∈ vis2, u ∉ vis → ∀ deps, lookup u = some deps →
          targetId ∉ deps ∧ ∀ d ∈ deps, d ∈ vis2) ∧
      (∀ (l : List String) (vis vis2 : List String),
        l.foldl (checkDepsStep lookup targetId fuel)
            (some (false, vis)) = some (false, vis2) →
        ∀ u ∈ vis2, u ∉ vis → ∀ deps, lookup u = some deps →
          targetId ∉ deps ∧ ∀ d ∈ deps, d ∈ vis2) := by
  intro fuel
  induction fuel with
  | zero =>
    constructor
    · intro vis id vis2 h
      simp [checkDeps] at h
    · intro l
      induction l with
      | nil =>
        intro vis vis2 h u hu hnu deps hdeps
        simp at h
        subst h
        exact absurd hu hnu
      | cons d ds ih =>
        intro vis vis2 h
        rw [List.foldl_cons, show checkDepsStep lookup targetId 0
            (some (false, vis)) d =
            checkDeps lookup targetId 0 vis d from rfl,
          show checkDeps lookup targetId 0 vis d = none from rfl,
          checkDeps_foldl_none] at h
        exact absurd h (by simp)
  | succ fuel ih =>
    have h1 : ∀ (vis : List String) (id : String) (vis2 : List String),
        checkDeps lookup targetId (fuel + 1) vis id = some (false, vis2) →
        ∀ u ∈ vis2, u ∉ vis → ∀ deps, lookup u = some deps →
          targetId ∉ deps ∧ ∀ d ∈ deps, d ∈ vis2 := by
      intro vis cid vis2 h u hu hnu deps0 hdeps0
      rw [checkDeps_succ] at h
      by_cases hv : cid ∈ vis
      · simp [hv] at h
        subst h
        exact absurd hu hnu
      · simp only [hv, if_false] at h
        rcases hl : lookup cid with _ | deps
        · rw [hl] at h
          simp at h
          subst h
          rcases List.mem_append.mp hu with hu1 | hu2
          · exact absurd hu1 hnu
          · have hui : u = cid := by simpa using hu2
            rw [hui, hl] at hdeps0
            cases hdeps0
        · rw [hl] at h
          simp only at h
          by_cases ht : targetId ∈ deps
          · simp [ht] at h
          · simp only [ht, if_false] at h
            by_cases hui : u = cid
            · rw [hui] at hdeps0
              rw [hl] at hdeps0
              injection hdeps0 with hde
              subst hde
              exact ⟨ht, checkDeps_foldl_all_visited lookup targetId fuel
                deps (vis ++ [cid]) vis2 h⟩
            · have hnu1 : u ∉ vis ++ [cid] := by
                intro hcon
                rcases List.mem_append.mp hcon with hcs | hcs
                · exact hnu hcs
                · exact hui (by simpa using hcs)
              exact ih.2 deps (vis ++ [cid]) vis2 h u hu hnu1 deps0 hdeps0
    refine ⟨h1, ?_⟩
    intro l
    induction l with
    | nil =>
      intro vis vis2 h u hu hnu deps hdeps
      simp at h
      subst h
      exact absurd hu hnu
    | cons d ds ihl =>
      intro vis vis2 h u hu hnu deps0 hdeps0
      rw [List.foldl_cons, show checkDepsStep lookup targetId (fuel + 1)
        (some (false, vis)) d =
        checkDeps lookup targetId (fuel + 1) vis d from rfl] at h
      rcases hc : checkDeps lookup targetId (fuel + 1) vis d with _ | p
      · rw [hc, checkDeps_foldl_none] at h
        exact absurd h (by simp)
      · rw [hc] at h
        rcases p with ⟨b1, v1⟩
        cases b1 with
        | true =>
          rw [checkDeps_foldl_true] at h
          simp at h
        | false =>
          by_cases huv1 : u ∈ v1
          · have hpost1 := h1 vis d v1 hc u huv1 hnu deps0 hdeps0
            refine ⟨hpost1.1, fun d2 hd2 => ?_⟩
            exact (checkDeps_visited_mono lookup targetId (fuel + 1)).2 ds
              false v1 (false, vis2) h (hpost1.2 d2 hd2)
          · exact ihl v1 vis2 h u hu huv1 deps0 hdeps0

/-- Soundness: a `true` result exhibits a direct or transitive
dependency. -/
theorem checkDeps_sound (lookup : String → Option (List String))
    (targetId : String) :
    ∀ fuel : Nat,
      (∀ (vis : List String) (cid : String) (vis2 : List String),
        checkDeps lookup targetId fuel vis cid = some (true, vis2) →
        DependsOn lookup targetId cid) ∧
      (∀ (l vis vis2 : List String),
        l.foldl (checkDepsStep lookup targetId fuel)
            (some (false, vis)) = some (true, vis2) →
        ∃ d ∈ l, DependsOn lookup targetId d) := by
  intro fuel
  induction fuel with
  | zero =>
    constructor
    · intro vis cid vis2 h
      simp [checkDeps] at h
    · intro l
      induction l with
      | nil =>
        intro vis vis2 h
        simp at h
      | cons d ds ih =>
        intro vis vis2 h
        rw [List.foldl_cons, show checkDepsStep lookup targetId 0
            (some (false, vis)) d =
            checkDeps lookup targetId 0 vis d from rfl,
          show checkDeps lookup targetId 0 vis d = none from rfl,
          checkDeps_foldl_none] at h
        exact absurd h (by simp)
  | succ fuel ih =>
    have h1 : ∀ (vis : List String) (cid : String) (vis2 : List String),
        checkDeps lookup targetId (fuel + 1) vis cid = some (true, vis2) →
        DependsOn lookup targetId cid := by
      intro vis cid vis2 h
      rw [checkDeps_succ] at h
      by_cases hv : cid ∈ vis
      · simp [hv] at h
      · simp only [hv, if_false] at h
        rcases hl : lookup cid with _ | deps
        · rw [hl] at h
          simp at h
        · rw [hl] at h
          simp only at h
          by_cases ht : targetId ∈ deps
          · exact DependsOn.direct cid deps hl ht
          · simp only [ht, if_false] at h
            rcases ih.2 deps (vis ++ [cid]) vis2 h with ⟨d, hd, hdep⟩
            exact DependsOn.trans cid d deps hl hd hdep
    refine ⟨h1, ?_⟩
    intro l
    induction l with
    | nil =>
      intro vis vis2 h
      simp at h
    | cons d ds ihl =>
      intro vis vis2 h
      rw [List.foldl_cons, show checkDepsStep lookup targetId (fuel + 1)
        (some (false, vis)) d =
        checkDeps lookup targetId (fuel + 1) vis d from rfl] at h
      rcases hc : checkDeps lookup targetId (fuel + 1) vis d with _ | p
      · rw [hc, checkDeps_foldl_none] at h
        exact absurd h (by simp)
      · rw [hc] at h
        rcases p with ⟨b1, v1⟩
        cases b1 with
        | true => exact ⟨d, by simp, h1 vis d v1 hc⟩
        | false =>
          rcases ihl v1 vis2 h with ⟨d1, hd1, hdep⟩
          exact ⟨d1, List.mem_cons_of_mem d hd1, hdep⟩

/-- A successful lookup means the id is a key of the map. -/
theorem lookupDeps_mem_keys (m : List (String × VTask)) (cid : String)
    (deps : List String) (h : lookupDeps m cid = some deps) :
    cid ∈ (m.map Prod.fst).toFinset := by
  rcases hf : m.reverse.find? (fun p => p.1 == cid) with _ | p
  · have hnone : mapGet m cid = none := by simp [mapGet, hf]
    simp [lookupDeps, hnone] at h
  · have hmem := List.mem_of_find?_eq_some hf
    have hkey := List.find?_some hf
    rw [List.mem_reverse] at hmem
    simp only [List.mem_toFinset, List.mem_map]
    exact ⟨p, hmem, by simpa using hkey⟩

/-- Fuel sufficiency: as long as the number of unvisited map keys is
below the fuel, neither `checkDeps` nor its dependency fold exhausts —
every frame that recurses has just visited a fresh key. -/
theorem checkDeps_no_exhaustion (m : List (String × VTask))
    (targetId : String) :
    ∀ fuel : Nat,
      (∀ (vis : List String) (cid : String),
        ((m.map Prod.fst).toFinset \ vis.toFinset).card < fuel →
        checkDeps (lookupDeps m) targetId fuel vis cid ≠ none) ∧
      (∀ (l vis : List String),
        ((m.map Prod.fst).toFinset \ vis.toFinset).card < fuel →
        l.foldl (checkDepsStep (lookupDeps m) targetId fuel)
          (some (false, vis)) ≠ none) := by
  intro fuel
  induction fuel with
  | zero =>
    constructor
    · intro vis cid hcard
      exact absurd hcard (by omega)
    · intro l vis hcard
      exact absurd hcard (by omega)
  | succ fuel ih =>
    have h1 : ∀ (vis : List String) (cid : String),
        ((m.map Prod.fst).toFinset \ vis.toFinset).card < fuel + 1 →
        checkDeps (lookupDeps m) targetId (fuel + 1) vis cid ≠ none := by
      intro vis cid hcard
      rw [checkDeps_succ]
      by_cases hv : cid ∈ vis
      · simp [hv]
      · simp only [hv, if_false]
        rcases hl : lookupDeps m cid with _ | deps
        · simp
        · simp only
          by_cases ht : targetId ∈ deps
          · simp [ht]
          · simp only [ht, if_false]
            have hkey := lookupDeps_mem_keys m cid deps hl
            have hin : cid ∈ (m.map Prod.fst).toFinset \ vis.toFinset := by
              rw [Finset.mem_sdiff]
              exact ⟨hkey, by simpa using hv⟩
            have hsub : (m.map Prod.fst).toFinset \
                  (vis ++ [cid]).toFinset ⊆
                (m.map Prod.fst).toFinset \ vis.toFinset := by
              apply Finset.sdiff_subset_sdiff (le_refl _)
              intro a ha
              simp only [List.mem_toFinset] at ha ⊢
              exact List.mem_append_left [cid] ha
            have hnotin : cid ∉ (m.map Prod.fst).toFinset \
                (vis ++ [cid]).toFinset := by
              rw [Finset.mem_sdiff]
              intro hcon
              exact hcon.2 (by simp)
            have hss : (m.map Prod.fst).toFinset \ (vis ++ [cid]).toFinset ⊂
                (m.map Prod.fst).toFinset \ vis.toFinset :=
              ⟨hsub, fun hcon => hnotin (hcon hin)⟩
            have hlt := Finset.card_lt_card hss
            exact ih.2 deps (vis ++ [cid]) (by omega)
    refine ⟨h1, ?_⟩
    intro l
    induction l with
    | nil =>
      intro vis hcard
      simp
    | cons d ds ihl =>
      intro vis hcard
      rw [List.foldl_cons, show checkDepsStep (lookupDeps m) targetId
        (fuel + 1) (some (false, vis)) d =
        checkDeps (lookupDeps m) targetId (fuel + 1) vis d from rfl]
      rcases hc : checkDeps (lookupDeps m) targetId (fuel + 1) vis d
          with _ | p
      · exact absurd hc (h1 vis d hcard)
      · rcases p with ⟨b1, v1⟩
        cases b1 with
        | true => rw [checkDeps_foldl_true]; simp
        | false =>
          have hsubv : vis ⊆ v1 :=
            (checkDeps_visited_mono (lookupDeps m) targetId (fuel + 1)).1
              vis d (false, v1) hc
          have hsub2 : (m.map Prod.fst).toFinset \ v1.toFinset ⊆
              (m.map Prod.fst).toFinset \ vis.toFinset := by
            apply Finset.sdiff_subset_sdiff (le_refl _)
            intro a ha
            simp only [List.mem_toFinset] at ha ⊢
            exact hsubv ha
          have hle := Finset.card_le_card hsub2
          exact ihl v1 (by omega)

/-- C7: for every task, target and finite map — cyclic dependency edges
included — `hasDependency` terminates (the fuel-exhaustion marker is
never produced at the bound `allTasks.length + 1`) and returns `true`
exactly when a direct or transitive dependency chain from the task's id
reaches the target; otherwise — target unreachable or absent — it
returns `false`. -/
theorem hasDependency_correct (task : VTask) (targetId : String)
    (allTasks : List (String × VTask)) :
    (∃ b, hasDependencyRaw task targetId allTasks = some b) ∧
    (hasDependency task targetId allTasks = true ↔
      DependsOn (lookupDeps allTasks) targetId task.id) := by
  have hfuel : (((allTasks.map Prod.fst).toFinset) \
      ([] : List String).toFinset).card < allTasks.length + 1 := by
    have h1 : (((allTasks.map Prod.fst).toFinset) \
        ([] : List String).toFinset).card =
        ((allTasks.map Prod.fst).toFinset).card := by
      simp
    rw [h1]
    have h2 := List.toFinset_card_le (allTasks.map Prod.fst)
    simp only [List.length_map] at h2
    omega
  have hne := (checkDeps_no_exhaustion allTasks targetId
    (allTasks.length + 1)).1 [] task.id hfuel
  rcases hr : checkDeps (lookupDeps allTasks) targetId
      (allTasks.length + 1) [] task.id with _ | p
  · exact absurd hr hne
  rcases p with ⟨b, vis2⟩
  refine ⟨⟨b, by simp [hasDependencyRaw, hr]⟩, ?_, ?_⟩
  · intro htrue
    have hb : b = true := by
      simp [hasDependency, hasDependencyRaw, hr] at htrue
      exact htrue
    rw [hb] at hr
    exact (checkDeps_sound (lookupDeps allTasks) targetId
      (allTasks.length + 1)).1 [] task.id vis2 hr
  · intro hdep
    by_contra hfalse
    have hb : b = false := by
      simp [hasDependency, hasDependencyRaw, hr] at hfalse
      exact hfalse
    rw [hb] at hr
    have hent : task.id ∈ vis2 :=
      checkDeps_enters (lookupDeps allTasks) targetId
        (allTasks.length + 1) [] task.id (false, vis2) hr
    have hpost := (checkDeps_closure (lookupDeps allTasks) targetId
      (allTasks.length + 1)).1 [] task.id vis2 hr
    have hind : ∀ u, DependsOn (lookupDeps allTasks) targetId u →
        u ∈ vis2 → False := by
      intro u hdu
      induction hdu with
      | direct cid deps hl hm =>
        intro hu
        exact absurd hm (hpost cid hu (by simp) deps hl).1
      | trans cid d deps hl hd hsub ihd =>
        intro hu
        exact ihd ((hpost cid hu (by simp) deps hl).2 d hd)
    exact hind task.id hdep hent

end TaskMaster
